import Mathlib

/-!
Verification of the Paracord server core against its specification.

The Rust sources are shallowly embedded: pure filtering/computation code
becomes Lean functions over explicit data, database-backed operations become
functions on an explicit list of rows, and machine integers become `Nat`/`Int`
with bitwise operations where the code manipulates bit sets.
-/

namespace Paracord

/-! ## Gateway event bus (`crates/paracord-core/src/events.rs`)

`ServerEvent` and the per-session subscription state.  The `HashSet<i64>` of
guild ids and the `Vec<i64>` of target user ids are modelled as lists with
membership tested by `contains`; the `HashMap<String, SessionSubscription>`
session table is an association list. -/

structure ServerEvent where
  eventType : String
  payload : String
  guildId : Option Int
  targetUserIds : Option (List Int)
  deriving Repr, DecidableEq

structure SessionSubscription where
  userId : Int
  guildIds : List Int
  deriving Repr, DecidableEq

structure EventBus where
  sessions : List (String × SessionSubscription)
  deriving Repr, DecidableEq

/-- `EventBus::subscription_matches`. -/
def subscription_matches (s : SessionSubscription) (e : ServerEvent) : Bool :=
  match e.targetUserIds with
  | some targets => targets.contains s.userId
  | none =>
    match e.guildId with
    | some g => s.guildIds.contains g
    | none => true

/-- `EventBus::publish`: the snapshot of subscriptions whose queue the event is
enqueued on (the senders collected under the read lock). -/
def publishTargets (bus : EventBus) (e : ServerEvent) :
    List (String × SessionSubscription) :=
  bus.sessions.filter fun p => subscription_matches p.2 e

/-- C1: for every registered session and published event, `publish` enqueues
the event onto the session's queue iff `target_user_ids` is set and contains
the session's `user_id`, or `target_user_ids` is unset and the event's
`guild_id` is unset or contained in the session's guild set. -/
theorem publish_enqueues_iff_subscription_matches
    (bus : EventBus) (e : ServerEvent) (sid : String)
    (sub : SessionSubscription) (hreg : (sid, sub) ∈ bus.sessions) :
    (sid, sub) ∈ publishTargets bus e ↔
      ((∃ targets, e.targetUserIds = some targets ∧ sub.userId ∈ targets) ∨
        (e.targetUserIds = none ∧
          (e.guildId = none ∨ ∃ g, e.guildId = some g ∧ g ∈ sub.guildIds))) := by
  unfold publishTargets
  rw [List.mem_filter]
  constructor
  · rintro ⟨-, hmatch⟩
    unfold subscription_matches at hmatch
    rcases htu : e.targetUserIds with - | targets
    · rcases hg : e.guildId with - | g
      · exact Or.inr ⟨rfl, Or.inl rfl⟩
      · right
        refine ⟨rfl, Or.inr ⟨g, rfl, ?_⟩⟩
        rw [htu, hg] at hmatch
        simpa using hmatch
    · left
      refine ⟨targets, rfl, ?_⟩
      rw [htu] at hmatch
      simpa using hmatch
  · intro h
    refine ⟨hreg, ?_⟩
    unfold subscription_matches
    rcases h with ⟨targets, htu, hmem⟩ | ⟨htu, hg⟩
    · rw [htu]
      simpa using hmem
    · rw [htu]
      rcases hg with hg | ⟨g, hg, hmem⟩
      · rw [hg]
      · rw [hg]
        simpa using hmem

/-- Witness for C1: a bus with one session in guild 42 receives an event
published for guild 42. -/
theorem publish_enqueues_iff_subscription_matches_witness :
    let bus : EventBus := ⟨[("a", ⟨7, [42, 9]⟩)]⟩
    let e : ServerEvent := ⟨"MESSAGE_CREATE", "{}", some 42, none⟩
    ("a", (⟨7, [42, 9]⟩ : SessionSubscription)) ∈ publishTargets bus e := by
  intro bus e
  exact (publish_enqueues_iff_subscription_matches bus e "a" ⟨7, [42, 9]⟩
    (by decide)).mpr (Or.inr ⟨rfl, Or.inr ⟨42, rfl, by decide⟩⟩)

/-! ## Permission engine (`crates/paracord-core/src/permissions.rs`)

`Permissions` is a `bitflags` type over `u64` whose concrete flag assignment
lives in `paracord-models` (not part of the embedded core); permission values
are therefore modelled as raw `Nat` bit sets relative to an abstract flag
environment `PermFlags`: `all` is `Permissions::all()` (the union of every
defined flag) and the three named flags the engine mentions are given as
masks.  The `bitflags` operations translate as:
`from_bits_truncate b = b &&& all`, `contains q = (p &&& q == q)`,
`!q = all.ldiff q` (complement truncated to defined bits) and
`p.remove(q) = p.ldiff q` (`p & !q` on the raw bits). -/

structure PermFlags where
  all : Nat
  ADMINISTRATOR : Nat
  VIEW_CHANNEL : Nat
  SEND_MESSAGES : Nat
  deriving Repr, DecidableEq

/-- `Permissions::from_bits_truncate`: keep only defined flag bits. -/
def fromBitsTruncate (F : PermFlags) (bits : Nat) : Nat :=
  bits &&& F.all

/-- `Permissions::contains`. -/
def permContains (p q : Nat) : Bool :=
  p &&& q == q

/-- `a & !b` on raw bits, written with kernel-computable operations
(`a ^^^ (a &&& b)` clears exactly the bits of `b` from `a`). -/
def andNot (a b : Nat) : Nat :=
  a ^^^ (a &&& b)

/-- `paracord_db::roles::RoleRow`. -/
structure RoleRow where
  id : Int
  spaceId : Int
  name : String
  color : Int
  hoist : Bool
  position : Int
  permissions : Nat
  managed : Bool
  mentionable : Bool
  serverWide : Bool
  createdAt : Int
  deriving Repr, DecidableEq

/-- Modelled from the spec: `paracord_db::channels` is not under `src/`; the
channel row is reduced to the one field the permission engine reads, with
`parse_required_role_ids` applied (the parsed list of required role ids). -/
structure ChannelRow where
  id : Int
  requiredRoleIds : List Int
  deriving Repr, DecidableEq

/-- Modelled from the spec: `paracord_db::channel_overwrites` is not under
`src/`; an overwrite row carries `(channel_id, target_type, target_id,
allow_perms, deny_perms)` as the spec's ChannelOverwrite record. -/
structure ChannelOverwrite where
  channelId : Int
  targetType : Int
  targetId : Int
  allowPerms : Nat
  denyPerms : Nat
  deriving Repr, DecidableEq

def OVERWRITE_TARGET_ROLE : Int := 0
def OVERWRITE_TARGET_MEMBER : Int := 1

inductive CoreError where
  | NotFound
  | MissingPermission
  | Forbidden
  deriving Repr, DecidableEq

/-- `compute_permissions_from_roles`. -/
def compute_permissions_from_roles (F : PermFlags) (roles : List RoleRow)
    (guildOwnerId userId : Int) : Nat :=
  if userId = guildOwnerId then F.all
  else
    let perms := roles.foldl (fun p r => p ||| fromBitsTruncate F r.permissions) 0
    if permContains perms F.ADMINISTRATOR then F.all else perms

/-- `compute_channel_permissions`.  The database reads (`get_member_roles`,
`get_channel`, `get_channel_overwrites`) are supplied as explicit inputs:
`roles` is the user's role rows in the guild (which include the everyone role
when the user is a member), `channel` is the looked-up channel (`none` models
a missing row) and `overwrites` the channel's overwrite rows. -/
def compute_channel_permissions (F : PermFlags) (roles : List RoleRow)
    (channel : Option ChannelRow) (overwrites : List ChannelOverwrite)
    (guildId guildOwnerId userId : Int) : Except CoreError Nat :=
  let perms := compute_permissions_from_roles F roles guildOwnerId userId
  if permContains perms F.ADMINISTRATOR || userId == guildOwnerId then
    .ok F.all
  else
    match channel with
    | none => .error .NotFound
    | some channel =>
      let roleIds := roles.map (·.id)
      let requiredRoleIds := channel.requiredRoleIds
      if !requiredRoleIds.isEmpty &&
          !requiredRoleIds.any (fun i => roleIds.contains i) then
        .ok (andNot perms F.VIEW_CHANNEL)
      else if overwrites.isEmpty then
        .ok perms
      else
        let perms1 :=
          match overwrites.find? (fun o =>
              o.targetType == OVERWRITE_TARGET_ROLE && o.targetId == guildId) with
          | some everyone =>
            let deny := fromBitsTruncate F everyone.denyPerms
            let allow := fromBitsTruncate F everyone.allowPerms
            (perms &&& andNot F.all deny) ||| allow
          | none => perms
        let roleOws := overwrites.filter fun o =>
          o.targetType == OVERWRITE_TARGET_ROLE && roleIds.contains o.targetId
        let roleDeny := roleOws.foldl (fun d o => d ||| fromBitsTruncate F o.denyPerms) 0
        let roleAllow := roleOws.foldl (fun a o => a ||| fromBitsTruncate F o.allowPerms) 0
        let perms2 := (perms1 &&& andNot F.all roleDeny) ||| roleAllow
        let perms3 :=
          match overwrites.find? (fun o =>
              o.targetType == OVERWRITE_TARGET_MEMBER && o.targetId == userId) with
          | some memberOw =>
            (perms2 &&& andNot F.all (fromBitsTruncate F memberOw.denyPerms)) |||
              fromBitsTruncate F memberOw.allowPerms
          | none => perms2
        .ok perms3

/-- C2: computing channel permissions for the guild owner returns the
all-permissions set, for every role set, channel and overwrite
configuration. -/
theorem compute_channel_permissions_owner_all (F : PermFlags)
    (roles : List RoleRow) (channel : Option ChannelRow)
    (overwrites : List ChannelOverwrite) (guildId ownerId : Int) :
    compute_channel_permissions F roles channel overwrites guildId ownerId
      ownerId = .ok F.all := by
  unfold compute_channel_permissions
  simp

/-- Helper characterisation of `a &&& m = a`
("every bit of `a` lies inside the mask `m`"). -/
lemma land_mask_iff {a m : Nat} :
    a &&& m = a ↔ ∀ i, a.testBit i = true → m.testBit i = true := by
  constructor
  · intro h i ha
    have hb := congrArg (Nat.testBit · i) h
    simp only [Nat.testBit_land, ha, Bool.true_and] at hb
    exact hb
  · intro h
    apply Nat.eq_of_testBit_eq
    intro i
    rw [Nat.testBit_land]
    cases htest : a.testBit i
    · simp
    · simp [h i htest]

lemma testBit_andNot (a b : Nat) (i : Nat) :
    (andNot a b).testBit i = (a.testBit i && !(b.testBit i)) := by
  unfold andNot
  rw [Nat.testBit_xor, Nat.testBit_land]
  cases a.testBit i <;> cases b.testBit i <;> rfl

lemma land_self_mask {m : Nat} : m &&& m = m := by
  rw [land_mask_iff]
  intro i h
  exact h

lemma lor_mask {a b m : Nat} (ha : a &&& m = a) (hb : b &&& m = b) :
    (a ||| b) &&& m = a ||| b := by
  rw [land_mask_iff] at ha hb ⊢
  intro i hi
  rw [Nat.testBit_lor] at hi
  rcases Bool.or_eq_true_iff.mp hi with h | h
  · exact ha i h
  · exact hb i h

lemma land_left_mask {a x m : Nat} (ha : a &&& m = a) :
    (a &&& x) &&& m = a &&& x := by
  rw [land_mask_iff] at ha ⊢
  intro i hi
  rw [Nat.testBit_land, Bool.and_eq_true] at hi
  exact ha i hi.1

lemma truncate_mask {b m : Nat} : (b &&& m) &&& m = b &&& m := by
  rw [land_mask_iff]
  intro i hi
  rw [Nat.testBit_land, Bool.and_eq_true] at hi
  exact hi.2

lemma andNot_mask {a d m : Nat} (ha : a &&& m = a) :
    andNot a d &&& m = andNot a d := by
  rw [land_mask_iff] at ha ⊢
  intro i hi
  rw [testBit_andNot, Bool.and_eq_true] at hi
  exact ha i hi.1

lemma foldl_or_truncate_mask (F : PermFlags) (f : α → Nat) :
    ∀ (l : List α) (init : Nat), init &&& F.all = init →
      (l.foldl (fun p r => p ||| fromBitsTruncate F (f r)) init) &&& F.all =
        l.foldl (fun p r => p ||| fromBitsTruncate F (f r)) init := by
  intro l
  induction l with
  | nil => intro init h; exact h
  | cons r t ih =>
    intro init h
    exact ih _ (lor_mask h truncate_mask)

lemma compute_permissions_from_roles_mask (F : PermFlags) (roles : List RoleRow)
    (guildOwnerId userId : Int) :
    compute_permissions_from_roles F roles guildOwnerId userId &&& F.all =
      compute_permissions_from_roles F roles guildOwnerId userId := by
  unfold compute_permissions_from_roles
  dsimp only
  split
  · exact land_self_mask
  · split
    · exact land_self_mask
    · exact foldl_or_truncate_mask F (fun r => r.permissions) roles 0 (by simp)

/-- C9: every `PermissionSet` produced by the permission engine contains only
defined permission bits: role bits are passed through `from_bits_truncate`
and every later operation stays inside `Permissions::all()`, for both
`compute_permissions_from_roles` and `compute_channel_permissions`. -/
theorem permission_engine_returns_only_defined_bits :
    (∀ (F : PermFlags) (roles : List RoleRow) (guildOwnerId userId : Int),
      compute_permissions_from_roles F roles guildOwnerId userId &&& F.all =
        compute_permissions_from_roles F roles guildOwnerId userId) ∧
    (∀ (F : PermFlags) (roles : List RoleRow) (channel : Option ChannelRow)
      (overwrites : List ChannelOverwrite) (guildId guildOwnerId userId : Int)
      (p : Nat),
      compute_channel_permissions F roles channel overwrites guildId
        guildOwnerId userId = .ok p → p &&& F.all = p) := by
  refine ⟨compute_permissions_from_roles_mask, ?_⟩
  intro F roles channel overwrites guildId guildOwnerId userId p h
  have hbase := compute_permissions_from_roles_mask F roles guildOwnerId userId
  unfold compute_channel_permissions at h
  dsimp only at h
  split at h
  · rw [Except.ok.injEq] at h
    rw [← h]
    exact land_self_mask
  · split at h
    · exact absurd h (by simp)
    · split at h
      · rw [Except.ok.injEq] at h
        rw [← h]
        exact andNot_mask hbase
      · split at h
        · rw [Except.ok.injEq] at h
          rw [← h]
          exact hbase
        · rw [Except.ok.injEq] at h
          rw [← h]
          have h2 : (match List.find? (fun o =>
                o.targetType == OVERWRITE_TARGET_ROLE && o.targetId == guildId)
                overwrites with
              | some everyone =>
                (compute_permissions_from_roles F roles guildOwnerId userId &&&
                    andNot F.all (fromBitsTruncate F everyone.denyPerms)) |||
                  fromBitsTruncate F everyone.allowPerms
              | none =>
                compute_permissions_from_roles F roles guildOwnerId userId) &&&
              F.all =
              (match List.find? (fun o =>
                o.targetType == OVERWRITE_TARGET_ROLE && o.targetId == guildId)
                overwrites with
              | some everyone =>
                (compute_permissions_from_roles F roles guildOwnerId userId &&&
                    andNot F.all (fromBitsTruncate F everyone.denyPerms)) |||
                  fromBitsTruncate F everyone.allowPerms
              | none =>
                compute_permissions_from_roles F roles guildOwnerId userId) := by
            split
            · exact lor_mask (land_left_mask hbase) truncate_mask
            · exact hbase
          have hAllow := foldl_or_truncate_mask F (fun o => o.allowPerms)
            (overwrites.filter fun o =>
              o.targetType == OVERWRITE_TARGET_ROLE &&
                (roles.map (·.id)).contains o.targetId) 0 (by simp)
          split
          · exact lor_mask (land_left_mask (lor_mask (land_left_mask h2)
              hAllow)) truncate_mask
          · exact lor_mask (land_left_mask h2) hAllow

/-- Witness for C9: at a concrete flag environment and inputs carrying an
undefined bit (`16`), both engine results keep only defined bits. -/
theorem permission_engine_returns_only_defined_bits_witness :
    (compute_permissions_from_roles ⟨15, 8, 1, 2⟩
        [⟨5, 1, "r", 0, false, 0, 19, false, false, false, 0⟩] 9 7 &&& 15 =
      compute_permissions_from_roles ⟨15, 8, 1, 2⟩
        [⟨5, 1, "r", 0, false, 0, 19, false, false, false, 0⟩] 9 7) ∧
    (compute_channel_permissions ⟨15, 8, 1, 2⟩
        [⟨5, 1, "r", 0, false, 0, 19, false, false, false, 0⟩]
        (some ⟨3, []⟩) [⟨3, 0, 1, 16, 0⟩] 1 9 7 = .ok 3 ∧ 3 &&& 15 = 3) := by
  refine ⟨permission_engine_returns_only_defined_bits.1 _ _ _ _, rfl, ?_⟩
  exact permission_engine_returns_only_defined_bits.2 ⟨15, 8, 1, 2⟩
    [⟨5, 1, "r", 0, false, 0, 19, false, false, false, 0⟩] (some ⟨3, []⟩)
    [⟨3, 0, 1, 16, 0⟩] 1 9 7 3 rfl

/-- C6: for a non-owner, non-administrator member, a non-empty
`required_role_ids` list of which the user holds none makes
`compute_channel_permissions` return the role-aggregated permissions with
only VIEW_CHANNEL cleared, applying no channel overwrites (the result does
not depend on `overwrites`). -/
theorem compute_channel_permissions_required_role_gate (F : PermFlags)
    (roles : List RoleRow) (c : ChannelRow) (overwrites : List ChannelOverwrite)
    (guildId guildOwnerId userId : Int)
    (hOwner : userId ≠ guildOwnerId)
    (hAdmin : permContains (compute_permissions_from_roles F roles guildOwnerId
      userId) F.ADMINISTRATOR = false)
    (hNonempty : c.requiredRoleIds ≠ [])
    (hNoRole : ∀ i ∈ c.requiredRoleIds, i ∉ roles.map (·.id)) :
    compute_channel_permissions F roles (some c) overwrites guildId
      guildOwnerId userId =
      .ok (andNot (compute_permissions_from_roles F roles guildOwnerId userId)
        F.VIEW_CHANNEL) := by
  unfold compute_channel_permissions
  dsimp only
  rw [hAdmin]
  rw [show (userId == guildOwnerId) = false from beq_eq_false_iff_ne.mpr hOwner]
  rw [if_neg (by simp)]
  rw [if_pos]
  rw [Bool.and_eq_true, Bool.not_eq_true', Bool.not_eq_true']
  constructor
  · rw [List.isEmpty_eq_false]
    exact hNonempty
  · rw [List.any_eq_false]
    intro i hi
    simpa using hNoRole i hi

/-- Witness for C6: a member holding only role 5 in a channel requiring role
77 gets its role permissions (3) minus VIEW_CHANNEL (1). -/
theorem compute_channel_permissions_required_role_gate_witness :
    (7 : Int) ≠ 9 ∧
    compute_channel_permissions ⟨15, 8, 1, 2⟩
      [⟨5, 1, "r", 0, false, 0, 3, false, false, false, 0⟩]
      (some ⟨3, [77]⟩) [⟨3, 1, 7, 0, 2⟩] 1 9 7 = .ok 2 := by
  refine ⟨by decide, ?_⟩
  have h := compute_channel_permissions_required_role_gate ⟨15, 8, 1, 2⟩
    [⟨5, 1, "r", 0, false, 0, 3, false, false, false, 0⟩] ⟨3, [77]⟩
    [⟨3, 1, 7, 0, 2⟩] 1 9 7 (by decide) rfl (by decide) (by decide)
  exact h

/-- The overwrite cascade exactly as the spec sentence for C3 words it
("the union of the *other* role overwrites matching the user's roles"): the
everyone overwrite is applied first and excluded from the role union.  This
definition follows the spec's words, for comparison with
`compute_channel_permissions`. -/
def claimed_overwrite_cascade (F : PermFlags) (perms0 : Nat)
    (roleIds : List Int) (overwrites : List ChannelOverwrite)
    (guildId userId : Int) : Nat :=
  let perms1 :=
    match overwrites.find? (fun o =>
        o.targetType == OVERWRITE_TARGET_ROLE && o.targetId == guildId) with
    | some everyone =>
      (perms0 &&& andNot F.all (fromBitsTruncate F everyone.denyPerms)) |||
        fromBitsTruncate F everyone.allowPerms
    | none => perms0
  let others := overwrites.filter fun o =>
    o.targetType == OVERWRITE_TARGET_ROLE && !(o.targetId == guildId) &&
      roleIds.contains o.targetId
  let roleDeny := others.foldl (fun d o => d ||| fromBitsTruncate F o.denyPerms) 0
  let roleAllow := others.foldl (fun a o => a ||| fromBitsTruncate F o.allowPerms) 0
  let perms2 := (perms1 &&& andNot F.all roleDeny) ||| roleAllow
  match overwrites.find? (fun o =>
      o.targetType == OVERWRITE_TARGET_MEMBER && o.targetId == userId) with
  | some memberOw =>
    (perms2 &&& andNot F.all (fromBitsTruncate F memberOw.denyPerms)) |||
      fromBitsTruncate F memberOw.allowPerms
  | none => perms2

/-- The overwrite cascade as the code applies it: the role union ranges over
every role overwrite whose target role the user holds, with no exclusion of
the everyone overwrite (whose target, the everyone role `guild_id`, is in the
member's role list). -/
def applied_overwrite_cascade (F : PermFlags) (perms0 : Nat)
    (roleIds : List Int) (overwrites : List ChannelOverwrite)
    (guildId userId : Int) : Nat :=
  let perms1 :=
    match overwrites.find? (fun o =>
        o.targetType == OVERWRITE_TARGET_ROLE && o.targetId == guildId) with
    | some everyone =>
      (perms0 &&& andNot F.all (fromBitsTruncate F everyone.denyPerms)) |||
        fromBitsTruncate F everyone.allowPerms
    | none => perms0
  let roleOws := overwrites.filter fun o =>
    o.targetType == OVERWRITE_TARGET_ROLE && roleIds.contains o.targetId
  let roleDeny := roleOws.foldl (fun d o => d ||| fromBitsTruncate F o.denyPerms) 0
  let roleAllow := roleOws.foldl (fun a o => a ||| fromBitsTruncate F o.allowPerms) 0
  let perms2 := (perms1 &&& andNot F.all roleDeny) ||| roleAllow
  match overwrites.find? (fun o =>
      o.targetType == OVERWRITE_TARGET_MEMBER && o.targetId == userId) with
  | some memberOw =>
    (perms2 &&& andNot F.all (fromBitsTruncate F memberOw.denyPerms)) |||
      fromBitsTruncate F memberOw.allowPerms
  | none => perms2

/-- Counterexample for C3: with flags `⟨all=15, ADMIN=8, VIEW=1, SEND=2⟩`, a
member (user 7 of guild 1, roles = everyone role 1 with VIEW|SEND and role 10)
and overwrites everyone-allow-SEND plus role-10-deny-SEND, the code returns
VIEW|SEND (the everyone allow re-enters through the role union), while the
cascade claimed by the spec ("union of the *other* role overwrites") returns
VIEW only — the code does not apply the claimed order. -/
theorem overwrite_cascade_counterexample :
    compute_channel_permissions ⟨15, 8, 1, 2⟩
      [⟨1, 1, "everyone", 0, false, 0, 3, false, false, false, 0⟩,
        ⟨10, 1, "r", 0, false, 0, 0, false, false, false, 0⟩]
      (some ⟨3, []⟩) [⟨3, 0, 1, 2, 0⟩, ⟨3, 0, 10, 0, 2⟩] 1 9 7 = .ok 3 ∧
    claimed_overwrite_cascade ⟨15, 8, 1, 2⟩
      (compute_permissions_from_roles ⟨15, 8, 1, 2⟩
        [⟨1, 1, "everyone", 0, false, 0, 3, false, false, false, 0⟩,
          ⟨10, 1, "r", 0, false, 0, 0, false, false, false, 0⟩] 9 7)
      [1, 10] [⟨3, 0, 1, 2, 0⟩, ⟨3, 0, 10, 0, 2⟩] 1 7 = 1 ∧
    permContains 3 2 = true ∧ permContains 1 2 = false := by
  exact ⟨rfl, rfl, rfl, rfl⟩

/-- C3 (amended): for a non-owner, non-administrator member who passes the
required-role gate, with a non-empty overwrite list, the code applies the
everyone overwrite, then the union of every role overwrite whose target role
the user holds (the everyone overwrite included again, as the everyone role is
in the member's role list), then the member overwrite, each step computing
`perms = (perms & ~deny) | allow`; in particular everyone-deny-SEND,
role-allow-SEND (user holds the role) and member-deny-SEND yields a result
lacking SEND. -/
theorem compute_channel_permissions_overwrite_order (F : PermFlags)
    (roles : List RoleRow) (c : ChannelRow) (overwrites : List ChannelOverwrite)
    (guildId guildOwnerId userId : Int)
    (hOwner : userId ≠ guildOwnerId)
    (hAdmin : permContains (compute_permissions_from_roles F roles guildOwnerId
      userId) F.ADMINISTRATOR = false)
    (hGate : c.requiredRoleIds = [] ∨
      ∃ i ∈ c.requiredRoleIds, i ∈ roles.map (·.id))
    (hOws : overwrites ≠ []) :
    (compute_channel_permissions F roles (some c) overwrites guildId
        guildOwnerId userId =
      .ok (applied_overwrite_cascade F
        (compute_permissions_from_roles F roles guildOwnerId userId)
        (roles.map (·.id)) overwrites guildId userId)) ∧
    (compute_channel_permissions ⟨15, 8, 1, 2⟩
      [⟨1, 1, "everyone", 0, false, 0, 3, false, false, false, 0⟩,
        ⟨10, 1, "r", 0, false, 0, 0, false, false, false, 0⟩]
      (some ⟨3, []⟩) [⟨3, 0, 1, 0, 2⟩, ⟨3, 0, 10, 2, 0⟩, ⟨3, 1, 7, 0, 2⟩]
      1 9 7 = .ok 1 ∧ permContains 1 2 = false) := by
  refine ⟨?_, rfl, rfl⟩
  have hgate : (!c.requiredRoleIds.isEmpty &&
      !c.requiredRoleIds.any (fun i => (roles.map (·.id)).contains i)) = false := by
    rcases hGate with hempty | ⟨i, hi, hmem⟩
    · simp [hempty]
    · have hany : c.requiredRoleIds.any
          (fun i => (roles.map (·.id)).contains i) = true :=
        List.any_eq_true.mpr ⟨i, hi, by simpa using hmem⟩
      simp [hany]
      intro _
      obtain ⟨a, ha, hai⟩ := List.mem_map.mp hmem
      exact ⟨i, hi, a, ha, hai⟩
  unfold compute_channel_permissions applied_overwrite_cascade
  dsimp only
  rw [hAdmin,
    show (userId == guildOwnerId) = false from beq_eq_false_iff_ne.mpr hOwner]
  rw [if_neg (by simp)]
  rw [if_neg (by rw [hgate]; simp)]
  rw [if_neg (by simp [List.isEmpty_eq_false, hOws])]

/-- Witness for C3 (amended): at the counterexample's inputs the code result
equals the code-order cascade. -/
theorem compute_channel_permissions_overwrite_order_witness :
    compute_channel_permissions ⟨15, 8, 1, 2⟩
      [⟨1, 1, "everyone", 0, false, 0, 3, false, false, false, 0⟩,
        ⟨10, 1, "r", 0, false, 0, 0, false, false, false, 0⟩]
      (some ⟨3, []⟩) [⟨3, 0, 1, 2, 0⟩, ⟨3, 0, 10, 0, 2⟩] 1 9 7 =
      .ok (applied_overwrite_cascade ⟨15, 8, 1, 2⟩
        (compute_permissions_from_roles ⟨15, 8, 1, 2⟩
          [⟨1, 1, "everyone", 0, false, 0, 3, false, false, false, 0⟩,
            ⟨10, 1, "r", 0, false, 0, 0, false, false, false, 0⟩] 9 7)
        [1, 10] [⟨3, 0, 1, 2, 0⟩, ⟨3, 0, 10, 0, 2⟩] 1 7) := by
  exact (compute_channel_permissions_overwrite_order ⟨15, 8, 1, 2⟩
    [⟨1, 1, "everyone", 0, false, 0, 3, false, false, false, 0⟩,
      ⟨10, 1, "r", 0, false, 0, 0, false, false, false, 0⟩] ⟨3, []⟩
    [⟨3, 0, 1, 2, 0⟩, ⟨3, 0, 10, 0, 2⟩] 1 9 7 (by decide) rfl
    (Or.inl rfl) (by decide)).1

/-! ## Observability counters (`crates/paracord-core/src/observability.rs`)

The per-event-type counter `WS_EVENTS_BY_TYPE : Mutex<HashMap<String, u64>>`
is modelled as an association list built from the empty map; `u64` counts
saturate at `2^64 - 1` as `saturating_add` does.  Rust's `str::trim` is
modelled on the char list (drop whitespace from both ends), and `str::len`
(a byte count) as the sum of the chars' UTF-8 sizes. -/

def EVENT_TYPE_FALLBACK : String := "OTHER"
def MAX_EVENT_TYPE_LEN : Nat := 64
def MAX_EVENT_TYPE_KEYS : Nat := 128
def U64_MAX : Nat := 2 ^ 64 - 1

/-- `char::is_whitespace`: the Unicode White_Space property, i.e. the code
points U+0009–U+000D, U+0020, U+0085, U+00A0, U+1680, U+2000–U+200A,
U+2028, U+2029, U+202F, U+205F and U+3000. -/
def rustIsWhitespace (c : Char) : Bool :=
  let n := c.toNat
  n == 0x09 || n == 0x0A || n == 0x0B || n == 0x0C || n == 0x0D ||
  n == 0x20 || n == 0x85 || n == 0xA0 || n == 0x1680 ||
  (decide (0x2000 ≤ n) && decide (n ≤ 0x200A)) ||
  n == 0x2028 || n == 0x2029 || n == 0x202F || n == 0x205F || n == 0x3000

/-- `str::trim`: strip leading and trailing Unicode whitespace. -/
def rustTrim (s : String) : String :=
  ⟨((s.data.dropWhile rustIsWhitespace).reverse.dropWhile
      rustIsWhitespace).reverse⟩

/-- `str::len`: the UTF-8 byte length. -/
def utf8Len (s : String) : Nat :=
  s.data.foldl (fun n c => n + c.utf8Size) 0

/-- The character class admitted by `normalize_event_type`:
`is_ascii_uppercase || is_ascii_digit || ch == '_'`. -/
def isEventTypeChar (c : Char) : Bool :=
  c.isUpper || c.isDigit || c == '_'

/-- `normalize_event_type`. -/
def normalize_event_type (raw : String) : String :=
  let trimmed := rustTrim raw
  if trimmed.data.isEmpty ∨ MAX_EVENT_TYPE_LEN < utf8Len trimmed then
    EVENT_TYPE_FALLBACK
  else if !trimmed.data.all isEventTypeChar then
    EVENT_TYPE_FALLBACK
  else trimmed

/-- `u64::saturating_add(1)`. -/
def satAdd1 (c : Nat) : Nat :=
  min (c + 1) U64_MAX

/-- `HashMap::contains_key`. -/
def containsKey (m : List (String × Nat)) (k : String) : Bool :=
  m.any fun p => p.1 == k

/-- `by_type.entry(normalized).or_insert(0); *entry = entry.saturating_add(1)`. -/
def bumpEventCount : List (String × Nat) → String → List (String × Nat)
  | [], k => [(k, 1)]
  | (k', c) :: rest, k =>
    if k' == k then (k', satAdd1 c) :: rest
    else (k', c) :: bumpEventCount rest k

/-- `ws_event_dispatched` (its effect on the by-type map; the monotonic
`WS_EVENTS_TOTAL` counter is not modelled). -/
def ws_event_dispatched (m : List (String × Nat)) (eventType : String) :
    List (String × Nat) :=
  let normalized := normalize_event_type eventType
  let normalized :=
    if containsKey m normalized = false ∧ MAX_EVENT_TYPE_KEYS ≤ m.length then
      EVENT_TYPE_FALLBACK
    else normalized
  bumpEventCount m normalized

/-- A sequence of `ws_event_dispatched` calls starting from the empty map. -/
def ws_events_run (events : List String) : List (String × Nat) :=
  events.foldl ws_event_dispatched []

/-- `ws_metrics_snapshot`'s `events_by_type` component:
`sort_by(|a, b| a.0.cmp(&b.0))`. -/
def ws_metrics_snapshot_by_type (m : List (String × Nat)) :
    List (String × Nat) :=
  List.insertionSort (fun a b => a.1 ≤ b.1) m

/-- The number of labels other than `OTHER` in the by-type map. -/
def countNonOther (m : List (String × Nat)) : Nat :=
  ((m.map Prod.fst).filter fun k => k ≠ EVENT_TYPE_FALLBACK).length

instance : IsTotal (String × Nat) (fun a b => a.1 ≤ b.1) :=
  ⟨fun a b => le_total a.1 b.1⟩

instance : IsTrans (String × Nat) (fun a b => a.1 ≤ b.1) :=
  ⟨fun _ _ _ h1 h2 => le_trans h1 h2⟩

lemma bumpEventCount_keys_of_contains (k : String) :
    ∀ m : List (String × Nat), containsKey m k = true →
      (bumpEventCount m k).map Prod.fst = m.map Prod.fst := by
  intro m
  induction m with
  | nil => intro h; simp [containsKey] at h
  | cons p rest ih =>
    intro h
    unfold bumpEventCount
    by_cases hk : p.1 == k
    · simp [hk]
    · rw [containsKey, List.any_cons] at h
      rw [Bool.or_eq_true] at h
      rcases h with h | h
      · exact absurd h hk
      · simp only [hk]
        simp only [Bool.false_eq_true, if_false, List.map_cons]
        rw [ih h]

lemma bumpEventCount_of_not_contains (k : String) :
    ∀ m : List (String × Nat), containsKey m k = false →
      bumpEventCount m k = m ++ [(k, 1)] := by
  intro m
  induction m with
  | nil => intro _; rfl
  | cons p rest ih =>
    intro h
    rw [containsKey, List.any_cons] at h
    rw [Bool.or_eq_false_iff] at h
    unfold bumpEventCount
    rw [if_neg (by simp [h.1])]
    rw [ih h.2]
    rfl

lemma countNonOther_le_length (m : List (String × Nat)) :
    countNonOther m ≤ m.length := by
  unfold countNonOther
  calc ((m.map Prod.fst).filter fun k => k ≠ EVENT_TYPE_FALLBACK).length
      ≤ (m.map Prod.fst).length := List.length_filter_le _ _
    _ = m.length := List.length_map _ _

lemma countNonOther_dispatched (m : List (String × Nat)) (raw : String)
    (h : countNonOther m ≤ MAX_EVENT_TYPE_KEYS) :
    countNonOther (ws_event_dispatched m raw) ≤ MAX_EVENT_TYPE_KEYS := by
  unfold ws_event_dispatched
  dsimp only
  set n := normalize_event_type raw with hn
  by_cases hfull : containsKey m n = false ∧ MAX_EVENT_TYPE_KEYS ≤ m.length
  · rw [if_pos hfull]
    by_cases hother : containsKey m EVENT_TYPE_FALLBACK = true
    · unfold countNonOther
      rw [bumpEventCount_keys_of_contains _ _ hother]
      exact h
    · rw [bumpEventCount_of_not_contains _ _ (by
        cases hb : containsKey m EVENT_TYPE_FALLBACK
        · rfl
        · exact absurd hb hother)]
      unfold countNonOther
      rw [List.map_append, List.filter_append]
      simp only [List.map_cons, List.map_nil]
      rw [List.length_append]
      have h3 : (([EVENT_TYPE_FALLBACK].filter fun k =>
          k ≠ EVENT_TYPE_FALLBACK)).length = 0 := by decide
      rw [h3]
      unfold countNonOther at h
      omega
  · rw [if_neg hfull]
    by_cases hcont : containsKey m n = true
    · unfold countNonOther
      rw [bumpEventCount_keys_of_contains _ _ hcont]
      exact h
    · have hcontf : containsKey m n = false := by
        cases hb : containsKey m n
        · rfl
        · exact absurd hb hcont
      have hlen : m.length < MAX_EVENT_TYPE_KEYS := by
        by_contra hge
        exact hfull ⟨hcontf, Nat.le_of_not_lt hge⟩
      rw [bumpEventCount_of_not_contains _ _ hcontf]
      unfold countNonOther
      rw [List.map_append, List.filter_append, List.length_append]
      simp only [List.map_cons, List.map_nil]
      have h1 : countNonOther m ≤ m.length := countNonOther_le_length m
      have h2 : (([n].filter fun k => k ≠ EVENT_TYPE_FALLBACK)).length ≤ 1 :=
        List.length_filter_le _ _
      unfold countNonOther at h1
      omega

/-- When normalization rejects the name, the dispatch bumps the `OTHER`
entry (whether or not the key cap has been reached). -/
lemma dispatched_of_normalize_fallback (m : List (String × Nat)) (raw : String)
    (hnorm : normalize_event_type raw = EVENT_TYPE_FALLBACK) :
    ws_event_dispatched m raw = bumpEventCount m EVENT_TYPE_FALLBACK := by
  unfold ws_event_dispatched
  rw [hnorm]
  dsimp only
  split
  · rfl
  · rfl

/-- Each UTF-8 char occupies at least one byte, so a string's char count is
at most its byte length. -/
lemma length_le_utf8Len (s : String) : s.length ≤ utf8Len s := by
  unfold utf8Len
  suffices hgen : ∀ (l : List Char) (i : Nat),
      i + l.length ≤ l.foldl (fun n c => n + c.utf8Size) i by
    have h0 := hgen s.data 0
    rw [Nat.zero_add] at h0
    exact h0
  intro l
  induction l with
  | nil => intro i; simp
  | cons c t ih =>
    intro i
    rw [List.foldl_cons, List.length_cons]
    have h1 := ih (i + c.utf8Size)
    have h2 := Char.utf8Size_pos c
    omega

/-- C8: after any sequence of `ws_event_dispatched` calls the by-type map has
at most 128 labels besides `OTHER`; a name failing the
uppercase/digit/underscore normalization is counted under `OTHER`; once the
map holds 128 keys every not-yet-present label is counted under `OTHER`; and
the snapshot lists the labels sorted ascending. -/
theorem ws_event_type_metrics_bounded :
    (∀ events : List String,
      countNonOther (ws_events_run events) ≤ MAX_EVENT_TYPE_KEYS) ∧
    (∀ (m : List (String × Nat)) (raw : String),
      (rustTrim raw).data.all isEventTypeChar = false →
        ws_event_dispatched m raw = bumpEventCount m EVENT_TYPE_FALLBACK) ∧
    (∀ (m : List (String × Nat)) (raw : String),
      containsKey m (normalize_event_type raw) = false →
      MAX_EVENT_TYPE_KEYS ≤ m.length →
        ws_event_dispatched m raw = bumpEventCount m EVENT_TYPE_FALLBACK) ∧
    (∀ m : List (String × Nat),
      ((ws_metrics_snapshot_by_type m).map Prod.fst).Sorted (· ≤ ·)) := by
  refine ⟨?_, ?_, ?_, ?_⟩
  · intro events
    suffices hgen : ∀ (l : List String) (acc : List (String × Nat)),
        countNonOther acc ≤ MAX_EVENT_TYPE_KEYS →
        countNonOther (l.foldl ws_event_dispatched acc) ≤ MAX_EVENT_TYPE_KEYS by
      exact hgen events [] (by decide)
    intro l
    induction l with
    | nil => intro acc h; exact h
    | cons e t ih =>
      intro acc h
      exact ih _ (countNonOther_dispatched acc e h)
  · intro m raw hbad
    apply dispatched_of_normalize_fallback
    unfold normalize_event_type
    dsimp only
    split
    · rfl
    · rw [if_pos]
      rw [hbad]
      rfl
  · intro m raw hcont hlen
    unfold ws_event_dispatched
    dsimp only
    rw [if_pos ⟨hcont, hlen⟩]
  · intro m
    have hs := List.sorted_insertionSort (fun a b : String × Nat => a.1 ≤ b.1) m
    exact List.Pairwise.map Prod.fst (fun a b hab => hab) hs

set_option maxRecDepth 40000 in
/-- Witness for C8: a run with a lowercase name lands in `OTHER`; on a
128-entry map a fresh label also lands in `OTHER`. -/
theorem ws_event_type_metrics_bounded_witness :
    (countNonOther (ws_events_run ["MESSAGE_CREATE", "message_create"]) ≤
      MAX_EVENT_TYPE_KEYS) ∧
    (ws_event_dispatched [("MESSAGE_CREATE", 1)] "message_create" =
      bumpEventCount [("MESSAGE_CREATE", 1)] EVENT_TYPE_FALLBACK) ∧
    (ws_event_dispatched ((List.range 128).map fun i => (toString i, 1))
        "MESSAGE_CREATE" =
      bumpEventCount ((List.range 128).map fun i => (toString i, 1))
        EVENT_TYPE_FALLBACK) := by
  refine ⟨ws_event_type_metrics_bounded.1 _, ?_, ?_⟩
  · exact ws_event_type_metrics_bounded.2.1 _ _ (by decide)
  · exact ws_event_type_metrics_bounded.2.2.1 _ _ (by decide) (by decide)

/-- C10: `ws_event_dispatched` counts an event under `OTHER` whenever the
trimmed name is empty or longer than 64 characters (the byte length the code
compares is at least the character count), whatever its characters. -/
theorem ws_event_dispatched_empty_or_long_is_other
    (m : List (String × Nat)) (raw : String)
    (h : rustTrim raw = "" ∨ 64 < (rustTrim raw).length) :
    ws_event_dispatched m raw = bumpEventCount m EVENT_TYPE_FALLBACK := by
  apply dispatched_of_normalize_fallback
  unfold normalize_event_type
  dsimp only
  rw [if_pos]
  rcases h with hempty | hlong
  · left
    rw [hempty]
    rfl
  · right
    calc MAX_EVENT_TYPE_LEN < (rustTrim raw).length := hlong
      _ ≤ utf8Len (rustTrim raw) := length_le_utf8Len _

/-- Witness for C10: an all-uppercase 65-character name is counted under
`OTHER`, as is a whitespace-only name. -/
theorem ws_event_dispatched_empty_or_long_is_other_witness :
    (ws_event_dispatched [("A", 1)]
        "AAAAAAAAAAAAAAAAAAAAAAAAAAAAAAAAAAAAAAAAAAAAAAAAAAAAAAAAAAAAAAAAA" =
      bumpEventCount [("A", 1)] EVENT_TYPE_FALLBACK) ∧
    (ws_event_dispatched [("A", 1)] "  " =
      bumpEventCount [("A", 1)] EVENT_TYPE_FALLBACK) := by
  constructor
  · exact ws_event_dispatched_empty_or_long_is_other _ _ (Or.inr (by decide))
  · exact ws_event_dispatched_empty_or_long_is_other _ _ (Or.inl (by decide))

/-! ## Auth session store (`crates/paracord-db/src/sessions.rs`)

The `auth_sessions` table is modelled as a list of rows; each SQL statement
becomes a function from the row list (plus its bind parameters) to the
updated row list and its result.  `DateTime<Utc>` instants are modelled as
`Int`; the several `Utc::now()` calls inside one statement execution are
modelled as the single parameter `now`. -/

structure AuthSessionRow where
  id : String
  userId : Int
  refreshTokenHash : String
  currentJti : String
  pubKey : Option String
  deviceId : Option String
  userAgent : Option String
  ipAddress : Option String
  issuedAt : Int
  lastSeenAt : Int
  expiresAt : Int
  revokedAt : Option Int
  revokedReason : Option String
  deriving Repr, DecidableEq

/-- The WHERE clause of `rotate_session_refresh_token`:
`id = ?1 AND refresh_token_hash = ?2 AND revoked_at IS NULL AND
expires_at > ?5`. -/
def rotateCond (r : AuthSessionRow) (sessionId oldRefreshTokenHash : String)
    (now : Int) : Bool :=
  r.id == sessionId && r.refreshTokenHash == oldRefreshTokenHash &&
    r.revokedAt == none && decide (now < r.expiresAt)

/-- `rotate_session_refresh_token`: the UPDATE's effect on the table and the
`rows_affected() > 0` result. -/
def rotate_session_refresh_token (db : List AuthSessionRow)
    (sessionId oldRefreshTokenHash newRefreshTokenHash newJti : String)
    (now expiresAt : Int) : List AuthSessionRow × Bool :=
  (db.map fun r =>
    if rotateCond r sessionId oldRefreshTokenHash now then
      { r with refreshTokenHash := newRefreshTokenHash, currentJti := newJti,
               lastSeenAt := now, expiresAt := expiresAt }
    else r,
   db.any fun r => rotateCond r sessionId oldRefreshTokenHash now)

lemma rotateCond_iff (r : AuthSessionRow) (sessionId oldHash : String)
    (now : Int) :
    rotateCond r sessionId oldHash now = true ↔
      r.id = sessionId ∧ r.refreshTokenHash = oldHash ∧ r.revokedAt = none ∧
        now < r.expiresAt := by
  unfold rotateCond
  simp [and_assoc]

/-- Counterexample for C4: when the caller supplies a new refresh hash equal
to the old one, a successful rotation leaves the stored hash equal to the
supplied old hash, so a second rotation with the very same inputs succeeds
again instead of reporting no rows updated. -/
theorem rotate_session_refresh_token_counterexample :
    (rotate_session_refresh_token
      [⟨"s1", 1, "h", "j", none, none, none, none, 0, 0, 10, none, none⟩]
      "s1" "h" "h" "j2" 5 10).2 = true ∧
    (rotate_session_refresh_token
      (rotate_session_refresh_token
        [⟨"s1", 1, "h", "j", none, none, none, none, 0, 0, 10, none, none⟩]
        "s1" "h" "h" "j2" 5 10).1
      "s1" "h" "h" "j2" 5 10).2 = true := by
  exact ⟨rfl, rfl⟩

/-- C4 (amended): rotation reports success iff a session row exists with
matching id and stored refresh hash, not revoked and unexpired at `now`;
on failure zero rows are updated and the table is unchanged; a matching row
gets exactly the four fields updated; and — provided the new refresh hash
differs from the old one — a second rotation with the same inputs reports no
rows updated. -/
theorem rotate_session_refresh_token_spec (db : List AuthSessionRow)
    (sessionId oldHash newHash newJti : String) (now expiresAt : Int) :
    ((rotate_session_refresh_token db sessionId oldHash newHash newJti now
        expiresAt).2 = true ↔
      ∃ r ∈ db, r.id = sessionId ∧ r.refreshTokenHash = oldHash ∧
        r.revokedAt = none ∧ now < r.expiresAt) ∧
    ((rotate_session_refresh_token db sessionId oldHash newHash newJti now
        expiresAt).2 = false →
      (rotate_session_refresh_token db sessionId oldHash newHash newJti now
        expiresAt).1 = db) ∧
    (∀ r ∈ db, rotateCond r sessionId oldHash now = true →
      { r with refreshTokenHash := newHash, currentJti := newJti,
               lastSeenAt := now, expiresAt := expiresAt } ∈
        (rotate_session_refresh_token db sessionId oldHash newHash newJti now
          expiresAt).1) ∧
    (newHash ≠ oldHash →
      (rotate_session_refresh_token
        (rotate_session_refresh_token db sessionId oldHash newHash newJti now
          expiresAt).1
        sessionId oldHash newHash newJti now expiresAt).2 = false) := by
  refine ⟨?_, ?_, ?_, ?_⟩
  · unfold rotate_session_refresh_token
    dsimp only
    rw [List.any_eq_true]
    constructor
    · rintro ⟨r, hr, hcond⟩
      exact ⟨r, hr, (rotateCond_iff r sessionId oldHash now).mp hcond⟩
    · rintro ⟨r, hr, hcond⟩
      exact ⟨r, hr, (rotateCond_iff r sessionId oldHash now).mpr hcond⟩
  · intro hfail
    unfold rotate_session_refresh_token at hfail ⊢
    dsimp only at hfail ⊢
    rw [List.any_eq_false] at hfail
    have : ∀ r ∈ db, (if rotateCond r sessionId oldHash now then
        { r with refreshTokenHash := newHash, currentJti := newJti,
                 lastSeenAt := now, expiresAt := expiresAt } else r) = r := by
      intro r hr
      rw [if_neg]
      intro hcond
      exact hfail r hr hcond
    rw [List.map_congr_left this]
    simp
  · intro r hr hcond
    unfold rotate_session_refresh_token
    dsimp only
    refine List.mem_map.mpr ⟨r, hr, ?_⟩
    rw [if_pos hcond]
  · intro hne
    unfold rotate_session_refresh_token
    dsimp only
    rw [List.any_eq_false]
    intro r' hr'
    obtain ⟨r, hr, hur⟩ := List.mem_map.mp hr'
    intro hcond'
    rw [rotateCond_iff] at hcond'
    by_cases hcond : rotateCond r sessionId oldHash now = true
    · rw [if_pos hcond] at hur
      apply hne
      rw [← hur] at hcond'
      exact hcond'.2.1
    · rw [if_neg hcond] at hur
      rw [← hur] at hcond'
      exact hcond ((rotateCond_iff r sessionId oldHash now).mpr hcond')

/-- Witness for C4 (amended): with distinct old/new hashes on a live row, the
first rotation succeeds and the second reports no rows updated. -/
theorem rotate_session_refresh_token_spec_witness :
    ((rotate_session_refresh_token
      [⟨"s1", 1, "h", "j", none, none, none, none, 0, 0, 10, none, none⟩]
      "s1" "h" "h2" "j2" 5 10).2 = true) ∧
    ("h2" : String) ≠ "h" ∧
    (rotate_session_refresh_token
      (rotate_session_refresh_token
        [⟨"s1", 1, "h", "j", none, none, none, none, 0, 0, 10, none, none⟩]
        "s1" "h" "h2" "j2" 5 10).1
      "s1" "h" "h2" "j2" 5 10).2 = false := by
  refine ⟨?_, by decide, ?_⟩
  · exact (rotate_session_refresh_token_spec
      [⟨"s1", 1, "h", "j", none, none, none, none, 0, 0, 10, none, none⟩]
      "s1" "h" "h2" "j2" 5 10).1.mpr
      ⟨⟨"s1", 1, "h", "j", none, none, none, none, 0, 0, 10, none, none⟩,
        by decide, rfl, rfl, rfl, by decide⟩
  · exact (rotate_session_refresh_token_spec
      [⟨"s1", 1, "h", "j", none, none, none, none, 0, 0, 10, none, none⟩]
      "s1" "h" "h2" "j2" 5 10).2.2.2 (by decide)

/-- `max_sessions_per_user()`'s default; the env override is kept only when
it parses as a positive integer, so the effective value is always positive. -/
def default_max_sessions_per_user : Int := 20

def isRevoked (r : AuthSessionRow) : Bool :=
  r.revokedAt != none

/-- The `COUNT(*)` of the user's active sessions:
`user_id = ?1 AND revoked_at IS NULL AND expires_at > ?2`. -/
def activeSessionCount (db : List AuthSessionRow) (userId now : Int) : Nat :=
  (db.filter fun r =>
    r.userId == userId && r.revokedAt == none && decide (now < r.expiresAt)).length

/-- The rows scanned by the revocation subselect:
`user_id = ?1 AND revoked_at IS NULL`. -/
def nonRevokedForUser (db : List AuthSessionRow) (userId : Int) :
    List AuthSessionRow :=
  db.filter fun r => r.userId == userId && r.revokedAt == none

def lastSeenLE (a b : AuthSessionRow) : Prop :=
  a.lastSeenAt ≤ b.lastSeenAt

instance : DecidableRel lastSeenLE :=
  fun a b => inferInstanceAs (Decidable (a.lastSeenAt ≤ b.lastSeenAt))

instance : IsTotal AuthSessionRow lastSeenLE :=
  ⟨fun a b => le_total a.lastSeenAt b.lastSeenAt⟩

instance : IsTrans AuthSessionRow lastSeenLE :=
  ⟨fun _ _ _ h1 h2 => le_trans h1 h2⟩

/-- The revocation subselect of `create_session`:
`ORDER BY last_seen_at ASC LIMIT (active_count - max_sessions + 1)` over the
user's non-revoked rows (ties in `last_seen_at`, which SQL orders
arbitrarily, are resolved by table order via the stable sort). -/
def sessionLimitChosen (db : List AuthSessionRow) (userId maxSessions now : Int) :
    List AuthSessionRow :=
  (List.insertionSort lastSeenLE (nonRevokedForUser db userId)).take
    (((activeSessionCount db userId now : Int) - maxSessions + 1).toNat)

/-- `create_session`: count the user's active sessions; at or above the cap,
revoke the oldest non-revoked rows by `last_seen_at` with reason
`session_limit`; then insert the new row.  The schema's `issued_at` /
`last_seen_at` insert defaults (the table DDL is not under `src/`) are
modelled from the spec as the statement time `now`. -/
def create_session (db : List AuthSessionRow) (id : String) (userId : Int)
    (refreshTokenHash currentJti : String)
    (pubKey deviceId userAgent ipAddress : Option String)
    (expiresAt maxSessions now : Int) : List AuthSessionRow :=
  let db1 :=
    if maxSessions ≤ (activeSessionCount db userId now : Int) then
      let chosenIds := (sessionLimitChosen db userId maxSessions now).map (·.id)
      db.map fun r =>
        if chosenIds.contains r.id then
          { r with revokedAt := some now, revokedReason := some "session_limit" }
        else r
    else db
  db1 ++ [{ id := id, userId := userId, refreshTokenHash := refreshTokenHash,
            currentJti := currentJti, pubKey := pubKey, deviceId := deviceId,
            userAgent := userAgent, ipAddress := ipAddress, issuedAt := now,
            lastSeenAt := now, expiresAt := expiresAt,
            revokedAt := none, revokedReason := none }]

lemma countP_or_disjoint (p q : α → Bool) :
    ∀ l : List α, (∀ a ∈ l, ¬(p a = true ∧ q a = true)) →
      l.countP (fun a => p a || q a) = l.countP p + l.countP q := by
  intro l
  induction l with
  | nil => intro _; simp
  | cons a t ih =>
    intro h
    rw [List.countP_cons, List.countP_cons, List.countP_cons,
      ih fun x hx => h x (List.mem_cons_of_mem a hx)]
    have hat := h a (List.mem_cons_self a t)
    cases hp : p a <;> cases hq : q a <;> simp [hp, hq] at hat ⊢ <;> omega

lemma countP_contains_eq_length {α : Type} (f : α → String) :
    ∀ (ys : List String) (s : List α), (s.map f).Nodup → ys.Nodup →
      (∀ y ∈ ys, y ∈ s.map f) →
      s.countP (fun r => ys.contains (f r)) = ys.length := by
  intro ys
  induction ys with
  | nil =>
    intro s _ _ _
    rw [List.length_nil, List.countP_eq_zero]
    intro a _
    simp
  | cons y ys ih =>
    intro s hs hys hsub
    obtain ⟨a, ha, hfa⟩ := List.mem_map.mp (hsub y (List.mem_cons_self y ys))
    obtain ⟨s₁, s₂, rfl⟩ := List.append_of_mem ha
    have hmapeq : (s₁ ++ a :: s₂).map f = s₁.map f ++ f a :: s₂.map f := by
      simp
    rw [hmapeq] at hs
    have hcons : (f a :: (s₁.map f ++ s₂.map f)).Nodup :=
      List.perm_middle.nodup hs
    have hfa_not : f a ∉ s₁.map f ++ s₂.map f := (List.nodup_cons.mp hcons).1
    have hnodup2 : ((s₁ ++ s₂).map f).Nodup := by
      rw [List.map_append]
      exact (List.nodup_cons.mp hcons).2
    have hne : ∀ x, (x ∈ s₁ ∨ x ∈ s₂) → f x ≠ y := by
      intro x hx hfx
      apply hfa_not
      rw [hfa]
      rcases hx with hx | hx
      · exact List.mem_append_left _ (hfx ▸ List.mem_map_of_mem f hx)
      · exact List.mem_append_right _ (hfx ▸ List.mem_map_of_mem f hx)
    have hc1 : s₁.countP (fun r => (y :: ys).contains (f r)) =
        s₁.countP (fun r => ys.contains (f r)) := by
      apply List.countP_congr
      intro x hx
      have hxy : (f x == y) = false := beq_eq_false_iff_ne.mpr
        (hne x (Or.inl hx))
      simp [List.contains_cons, hxy]
      intro hfx
      exact absurd hfx (hne x (Or.inl hx))
    have hc2 : s₂.countP (fun r => (y :: ys).contains (f r)) =
        s₂.countP (fun r => ys.contains (f r)) := by
      apply List.countP_congr
      intro x hx
      have hxy : (f x == y) = false := beq_eq_false_iff_ne.mpr
        (hne x (Or.inr hx))
      simp [List.contains_cons, hxy]
      intro hfx
      exact absurd hfx (hne x (Or.inr hx))
    have hsub2 : ∀ y' ∈ ys, y' ∈ (s₁ ++ s₂).map f := by
      intro y' hy'
      have h1 := hsub y' (List.mem_cons_of_mem y hy')
      rw [hmapeq] at h1
      rw [List.map_append]
      rcases List.mem_append.mp h1 with h1 | h1
      · exact List.mem_append_left _ h1
      · rcases List.mem_cons.mp h1 with h1 | h1
        · exfalso
          exact (List.nodup_cons.mp hys).1 (h1.trans hfa ▸ hy')
        · exact List.mem_append_right _ h1
    have hih := ih (s₁ ++ s₂) hnodup2 (List.nodup_cons.mp hys).2 hsub2
    rw [List.countP_append] at hih
    have hpa : (fun r => (y :: ys).contains (f r)) a = true := by
      simp [List.contains_cons, hfa]
    rw [List.countP_append, List.countP_cons, hc1, hc2, if_pos hpa,
      List.length_cons]
    omega

lemma mem_nonRevokedForUser {db : List AuthSessionRow} {userId : Int}
    {r : AuthSessionRow} (h : r ∈ nonRevokedForUser db userId) :
    r ∈ db ∧ r.userId = userId ∧ r.revokedAt = none := by
  unfold nonRevokedForUser at h
  obtain ⟨hm, hp⟩ := List.mem_filter.mp h
  rw [Bool.and_eq_true, beq_iff_eq, beq_iff_eq] at hp
  exact ⟨hm, hp.1, hp.2⟩

lemma sessionLimitChosen_mem {db : List AuthSessionRow}
    {userId maxSessions now : Int} {c : AuthSessionRow}
    (hc : c ∈ sessionLimitChosen db userId maxSessions now) :
    c ∈ nonRevokedForUser db userId := by
  unfold sessionLimitChosen at hc
  exact (List.perm_insertionSort lastSeenLE _).subset (List.mem_of_mem_take hc)

lemma sessionLimitChosen_length (db : List AuthSessionRow)
    (userId maxSessions now : Int) (hMax : 0 < maxSessions)
    (hCount : maxSessions ≤ (activeSessionCount db userId now : Int)) :
    (sessionLimitChosen db userId maxSessions now).length =
      ((activeSessionCount db userId now : Int) - maxSessions + 1).toNat := by
  unfold sessionLimitChosen
  rw [List.length_take]
  apply min_eq_left
  rw [(List.perm_insertionSort lastSeenLE _).length_eq]
  have hle : activeSessionCount db userId now ≤
      (nonRevokedForUser db userId).length := by
    unfold activeSessionCount nonRevokedForUser
    rw [← List.countP_eq_length_filter, ← List.countP_eq_length_filter]
    apply List.countP_mono_left
    intro r _ hp
    rw [Bool.and_eq_true] at hp
    exact hp.1
  omega

lemma sessionLimitChosen_ids_nodup {db : List AuthSessionRow}
    {userId maxSessions now : Int} (hNodup : (db.map (·.id)).Nodup) :
    ((sessionLimitChosen db userId maxSessions now).map (·.id)).Nodup := by
  have h1 : ((nonRevokedForUser db userId).map (·.id)).Nodup :=
    hNodup.sublist ((List.filter_sublist db).map (·.id))
  have h2 : ((List.insertionSort lastSeenLE
      (nonRevokedForUser db userId)).map (·.id)).Nodup :=
    (((List.perm_insertionSort lastSeenLE _).map (·.id)).nodup_iff).mpr h1
  unfold sessionLimitChosen
  exact h2.sublist (List.Sublist.map (fun r : AuthSessionRow => r.id)
    (List.take_sublist _ _))

lemma sessionLimitChosen_ids_sub {db : List AuthSessionRow}
    {userId maxSessions now : Int} :
    ∀ y ∈ (sessionLimitChosen db userId maxSessions now).map (·.id),
      y ∈ db.map (·.id) := by
  intro y hy
  obtain ⟨c, hc, hcy⟩ := List.mem_map.mp hy
  exact hcy ▸ List.mem_map_of_mem (·.id) (mem_nonRevokedForUser
    (sessionLimitChosen_mem hc)).1

lemma chosen_disjoint_isRevoked {db : List AuthSessionRow}
    {userId maxSessions now : Int} (hNodup : (db.map (·.id)).Nodup) :
    ∀ r ∈ db, ¬(((sessionLimitChosen db userId maxSessions now).map
        (·.id)).contains r.id = true ∧ isRevoked r = true) := by
  rintro r hr ⟨hc, hrev⟩
  have hmem : r.id ∈ (sessionLimitChosen db userId maxSessions now).map (·.id) := by
    simpa using hc
  obtain ⟨c, hcmem, hcid⟩ := List.mem_map.mp hmem
  obtain ⟨hcdb, -, hcnone⟩ := mem_nonRevokedForUser (sessionLimitChosen_mem hcmem)
  have hrc : r = c := List.inj_on_of_nodup_map hNodup hr hcdb (by rw [hcid])
  rw [hrc] at hrev
  unfold isRevoked at hrev
  rw [hcnone] at hrev
  simp at hrev

/-- C5: when `create_session` runs for a user with `count ≥ MAX` active
sessions it revokes exactly `count − MAX + 1` sessions with reason
`session_limit`, chosen as those with the oldest `last_seen_at` among the
user's non-revoked rows, and then inserts the new session; after creating
MAX+1 sessions for a user (here `MAX = 2`), exactly one is revoked and it is
the one with the oldest `last_seen_at`. -/
theorem create_session_cap (db : List AuthSessionRow) (id : String)
    (userId : Int) (refreshTokenHash currentJti : String)
    (pubKey deviceId userAgent ipAddress : Option String)
    (expiresAt maxSessions now : Int)
    (hNodup : (db.map (·.id)).Nodup)
    (hMax : 0 < maxSessions)
    (hCount : maxSessions ≤ (activeSessionCount db userId now : Int)) :
    (((create_session db id userId refreshTokenHash currentJti pubKey deviceId
        userAgent ipAddress expiresAt maxSessions now).filter isRevoked).length =
      (db.filter isRevoked).length +
        ((activeSessionCount db userId now : Int) - maxSessions + 1).toNat) ∧
    ((sessionLimitChosen db userId maxSessions now).length =
      ((activeSessionCount db userId now : Int) - maxSessions + 1).toNat) ∧
    (∀ r ∈ db, r.id ∈ (sessionLimitChosen db userId maxSessions now).map (·.id) →
      { r with revokedAt := some now, revokedReason := some "session_limit" } ∈
        create_session db id userId refreshTokenHash currentJti pubKey deviceId
          userAgent ipAddress expiresAt maxSessions now) ∧
    (∀ c ∈ sessionLimitChosen db userId maxSessions now,
      ∀ r ∈ nonRevokedForUser db userId,
        r.id ∉ (sessionLimitChosen db userId maxSessions now).map (·.id) →
        c.lastSeenAt ≤ r.lastSeenAt) ∧
    ((create_session db id userId refreshTokenHash currentJti pubKey deviceId
        userAgent ipAddress expiresAt maxSessions now).getLast? =
      some ⟨id, userId, refreshTokenHash, currentJti, pubKey, deviceId,
        userAgent, ipAddress, now, now, expiresAt, none, none⟩) ∧
    ((create_session (create_session (create_session [] "s0" 1 "h0" "j0" none
        none none none 100 2 0) "s1" 1 "h1" "j1" none none none none 100 2 1)
        "s2" 1 "h2" "j2" none none none none 100 2 2).filter isRevoked =
      [⟨"s0", 1, "h0", "j0", none, none, none, none, 0, 0, 100, some 2,
        some "session_limit"⟩]) := by
  refine ⟨?_, sessionLimitChosen_length db userId maxSessions now hMax hCount,
    ?_, ?_, ?_, ?_⟩
  · unfold create_session
    dsimp only
    rw [if_pos hCount]
    rw [List.filter_append]
    have hnewf : (List.filter isRevoked [⟨id, userId, refreshTokenHash,
        currentJti, pubKey, deviceId, userAgent, ipAddress, now, now,
        expiresAt, none, none⟩]) = [] := rfl
    rw [hnewf, List.append_nil]
    rw [← List.countP_eq_length_filter, ← List.countP_eq_length_filter,
      List.countP_map]
    have hcongr : ∀ x ∈ db,
        (isRevoked ∘ fun r =>
          if ((sessionLimitChosen db userId maxSessions now).map
              (·.id)).contains r.id then
            { r with revokedAt := some now,
                     revokedReason := some "session_limit" }
          else r) x = true ↔
        (fun r => ((sessionLimitChosen db userId maxSessions now).map
          (·.id)).contains r.id || isRevoked r) x = true := by
      intro x _
      dsimp only [Function.comp_apply]
      cases hc : ((sessionLimitChosen db userId maxSessions now).map
          (·.id)).contains x.id
      · rw [if_neg (by simp [hc])]
        simp
      · rw [if_pos rfl]
        unfold isRevoked
        simp
    rw [List.countP_congr hcongr]
    rw [countP_or_disjoint _ _ db (chosen_disjoint_isRevoked hNodup)]
    rw [countP_contains_eq_length (·.id)
      ((sessionLimitChosen db userId maxSessions now).map (·.id)) db hNodup
      (sessionLimitChosen_ids_nodup hNodup) sessionLimitChosen_ids_sub]
    rw [List.length_map, sessionLimitChosen_length db userId maxSessions now
      hMax hCount]
    omega
  · intro r hr hid
    unfold create_session
    dsimp only
    rw [if_pos hCount]
    apply List.mem_append_left
    refine List.mem_map.mpr ⟨r, hr, ?_⟩
    rw [if_pos (by simpa using hid)]
  · intro c hc r hr hnot
    have hsorted := List.sorted_insertionSort lastSeenLE
      (nonRevokedForUser db userId)
    have hrs : r ∈ List.insertionSort lastSeenLE (nonRevokedForUser db userId) :=
      (List.perm_insertionSort lastSeenLE _).symm.subset hr
    have hsplit : List.insertionSort lastSeenLE (nonRevokedForUser db userId) =
        sessionLimitChosen db userId maxSessions now ++
          (List.insertionSort lastSeenLE (nonRevokedForUser db userId)).drop
            (((activeSessionCount db userId now : Int) - maxSessions + 1).toNat) :=
      (List.take_append_drop _ _).symm
    have hpw := hsplit ▸ hsorted
    rcases List.mem_append.mp (hsplit ▸ hrs) with hrt | hrd
    · exact absurd (List.mem_map_of_mem (·.id) hrt) hnot
    · exact (List.pairwise_append.mp hpw).2.2 c hc r hrd
  · unfold create_session
    dsimp only
    exact List.getLast?_concat _
  · rfl

/-- Witness for C5: with MAX = 2 and two live sessions (last seen at 0 and 1),
creating a third at time 2 revokes exactly one. -/
theorem create_session_cap_witness :
    ((create_session
        [⟨"s0", 1, "h0", "j0", none, none, none, none, 0, 0, 100, none, none⟩,
          ⟨"s1", 1, "h1", "j1", none, none, none, none, 1, 1, 100, none, none⟩]
        "s2" 1 "h2" "j2" none none none none 100 2 2).filter isRevoked).length =
      ([(⟨"s0", 1, "h0", "j0", none, none, none, none, 0, 0, 100, none, none⟩ :
          AuthSessionRow),
        ⟨"s1", 1, "h1", "j1", none, none, none, none, 1, 1, 100, none, none⟩].filter
          isRevoked).length + 1 :=
  (create_session_cap
    [⟨"s0", 1, "h0", "j0", none, none, none, none, 0, 0, 100, none, none⟩,
      ⟨"s1", 1, "h1", "j1", none, none, none, none, 1, 1, 100, none, none⟩]
    "s2" 1 "h2" "j2" none none none none 100 2 2
    (by decide) (by decide) (by decide)).1

/-! ## Native media receive path
(`client/src-tauri/src/native_media/audio_pipeline.rs`)

Only the dispatch performed by `spawn_datagram_recv_task` after a datagram
has parsed and decrypted successfully is embedded; parsing
(`MediaHeader::decode`) and AEAD decryption live in the `paracord-transport` /
`paracord-codec` crates, which are not under `src/`, and the claim
conditions on their success. -/

inductive TrackType where
  | Audio
  | Video
  deriving Repr, DecidableEq

/-- Modelled from the spec: `paracord_transport::protocol::MediaHeader` (the
transport crate is not under `src/`): the parsed fixed-width header
record. -/
structure MediaHeader where
  trackType : TrackType
  ssrc : Nat
  sequence : Nat
  timestamp : Nat
  audioLevel : Nat
  keyEpoch : Nat
  payloadLength : Nat
  deriving Repr, DecidableEq

structure JBFrame where
  sequence : Nat
  timestamp : Nat
  payload : List Nat
  arrivalMs : Nat
  deriving Repr, DecidableEq

/-- Modelled from the spec: the per-SSRC jitter buffer (crate
`paracord-codec`, not under `src/`), carrying the spec's §4.B parameters. -/
structure JitterBuffer where
  frames : List JBFrame
  highestSeen : Nat
  reorderWindow : Nat
  maxDepth : Nat
  deriving Repr, DecidableEq

def jbSeqLE (a b : JBFrame) : Prop :=
  a.sequence ≤ b.sequence

instance : DecidableRel jbSeqLE :=
  fun a b => inferInstanceAs (Decidable (a.sequence ≤ b.sequence))

/-- Modelled from the spec: the §4.B insert contract — a frame older than
`highest_seen − reorder_window` is dropped silently; at `max_depth` the
oldest buffered frame is dropped; otherwise the frame is inserted in
sequence order, a duplicate sequence replacing the old frame idempotently
(u16 wraparound is not modelled). -/
def JitterBuffer.insert (jb : JitterBuffer) (sequence timestamp : Nat)
    (payload : List Nat) (arrivalMs : Nat) : JitterBuffer :=
  if sequence + jb.reorderWindow < jb.highestSeen then jb
  else
    let kept := if jb.maxDepth ≤ jb.frames.length then jb.frames.tail
      else jb.frames
    let withNew := (kept.filter fun f => f.sequence != sequence) ++
      [⟨sequence, timestamp, payload, arrivalMs⟩]
    { jb with frames := List.insertionSort jbSeqLE withNew,
              highestSeen := max jb.highestSeen sequence }

/-- The per-SSRC bundle held in the `remote_audio` map (`RemoteAudioState`
from `native_media/session.rs`, reduced to the fields the receive task
touches; the Opus decoder and playback sink are opaque to this claim). -/
structure RemoteAudioState where
  jitterBuffer : JitterBuffer
  audioLevel : Nat
  deriving Repr, DecidableEq

/-- The `TrackType::Audio` arm of `spawn_datagram_recv_task` for a datagram
that parsed and decrypted successfully: skip when locally deafened, else
`remote_audio.get_mut(&header.ssrc)` — inserting into the jitter buffer and
updating `audio_level` when a state exists, and doing nothing otherwise (the
comment in the source: new SSRCs are registered by `add_playback_source`,
not here).  The `HashMap<u32, RemoteAudioState>` is an association list. -/
def handle_audio_datagram (deafened : Bool)
    (remoteAudio : List (Nat × RemoteAudioState)) (header : MediaHeader)
    (decrypted : List Nat) (arrivalMs : Nat) : List (Nat × RemoteAudioState) :=
  if deafened then remoteAudio
  else if (remoteAudio.lookup header.ssrc).isSome then
    remoteAudio.map fun p =>
      if p.1 == header.ssrc then
        (p.1, ⟨p.2.jitterBuffer.insert header.sequence header.timestamp
          decrypted arrivalMs, header.audioLevel⟩)
      else p
  else remoteAudio

lemma lookup_cons_pair {β : Type} (a : Nat) (p : Nat × β) (t : List (Nat × β)) :
    List.lookup a (p :: t) = if a == p.1 then some p.2 else List.lookup a t := by
  rcases p with ⟨k, v⟩
  rw [List.lookup]
  cases h : a == k <;> simp [h]

lemma lookup_map_update (ssrc seq ts arr : Nat) (pay : List Nat) (lvl : Nat) :
    ∀ remote : List (Nat × RemoteAudioState),
      (remote.map fun p => if p.1 == ssrc then
          (p.1, ⟨p.2.jitterBuffer.insert seq ts pay arr, lvl⟩) else p).lookup
        ssrc =
        (remote.lookup ssrc).map
          fun st => ⟨st.jitterBuffer.insert seq ts pay arr, lvl⟩ := by
  intro remote
  induction remote with
  | nil => rfl
  | cons p t ih =>
    rw [List.map_cons]
    by_cases h : (p.1 == ssrc) = true
    · rw [if_pos h]
      rw [lookup_cons_pair, lookup_cons_pair]
      dsimp only
      have h' : (ssrc == p.1) = true := by
        rw [beq_iff_eq] at h ⊢
        exact h.symm
      rw [if_pos h', if_pos h']
      rfl
    · rw [if_neg h]
      rw [lookup_cons_pair, lookup_cons_pair]
      have hne : p.1 ≠ ssrc := by simpa using h
      have h2 : (ssrc == p.1) = false := beq_eq_false_iff_ne.mpr (Ne.symm hne)
      rw [if_neg (by simp [h2]), if_neg (by simp [h2])]
      exact ih

/-- Counterexample for C7: a successfully decrypted audio frame from an SSRC
with no registered state — the first received frame from that SSRC — leaves
the remote-audio map untouched: no `RemoteAudioState` is created by the
receive task. -/
theorem recv_task_does_not_create_state :
    handle_audio_datagram false []
      ⟨TrackType.Audio, 7, 3, 960, 50, 0, 2⟩ [9, 9] 5 = [] ∧
    (handle_audio_datagram false []
      ⟨TrackType.Audio, 7, 3, 960, 50, 0, 2⟩ [9, 9] 5).lookup 7 = none := by
  exact ⟨rfl, rfl⟩

/-- C7 (amended): for every successfully parsed and decrypted audio datagram
received while not deafened, the receive task looks up the
`RemoteAudioState` for `header.ssrc`; when one exists it calls
`jitter_buffer.insert(sequence, timestamp, payload, arrival_ms)` on it and
updates its `audio_level`, leaving other SSRCs untouched; when none exists
the frame is dropped and the map is unchanged (states are created by
`add_playback_source` during playback setup, not by the receive task); when
deafened the datagram is skipped. -/
theorem handle_audio_datagram_spec
    (remote : List (Nat × RemoteAudioState)) (header : MediaHeader)
    (decrypted : List Nat) (arrivalMs : Nat) :
    (∀ st, remote.lookup header.ssrc = some st →
      ((handle_audio_datagram false remote header decrypted
          arrivalMs).lookup header.ssrc =
        some ⟨st.jitterBuffer.insert header.sequence header.timestamp
          decrypted arrivalMs, header.audioLevel⟩) ∧
      (∀ s, s ≠ header.ssrc →
        (handle_audio_datagram false remote header decrypted
          arrivalMs).lookup s = remote.lookup s)) ∧
    (remote.lookup header.ssrc = none →
      handle_audio_datagram false remote header decrypted arrivalMs =
        remote) ∧
    (handle_audio_datagram true remote header decrypted arrivalMs = remote) := by
  refine ⟨?_, ?_, ?_⟩
  · intro st hst
    constructor
    · unfold handle_audio_datagram
      rw [if_neg (by simp)]
      rw [if_pos (by rw [hst]; rfl)]
      rw [lookup_map_update]
      rw [hst]
      rfl
    · intro s hs
      unfold handle_audio_datagram
      rw [if_neg (by simp)]
      rw [if_pos (by rw [hst]; rfl)]
      clear hst
      induction remote with
      | nil => rfl
      | cons p t ih =>
        rw [List.map_cons]
        by_cases h : (p.1 == header.ssrc) = true
        · rw [if_pos h]
          rw [lookup_cons_pair, lookup_cons_pair]
          dsimp only
          rw [beq_iff_eq] at h
          have h2 : (s == p.1) = false := beq_eq_false_iff_ne.mpr
            (fun he => hs (he.trans h))
          rw [if_neg (by simp [h2]), if_neg (by simp [h2])]
          exact ih
        · rw [if_neg h]
          rw [lookup_cons_pair, lookup_cons_pair]
          by_cases h3 : (s == p.1) = true
          · rw [if_pos h3, if_pos h3]
          · rw [if_neg h3, if_neg h3]
            exact ih
  · intro hnone
    unfold handle_audio_datagram
    rw [if_neg (by simp)]
    rw [if_neg (by rw [hnone]; simp)]
  · unfold handle_audio_datagram
    rw [if_pos rfl]

/-- Witness for C7 (amended): an audio frame from SSRC 7 with a registered
(empty) state lands in that state's jitter buffer and updates its level. -/
theorem handle_audio_datagram_spec_witness :
    (handle_audio_datagram false [(7, ⟨⟨[], 0, 4, 8⟩, 0⟩)]
      ⟨TrackType.Audio, 7, 3, 960, 50, 0, 2⟩ [9] 5).lookup 7 =
      some ⟨JitterBuffer.insert ⟨[], 0, 4, 8⟩ 3 960 [9] 5, 50⟩ :=
  ((handle_audio_datagram_spec [(7, ⟨⟨[], 0, 4, 8⟩, 0⟩)]
    ⟨TrackType.Audio, 7, 3, 960, 50, 0, 2⟩ [9] 5).1 ⟨⟨[], 0, 4, 8⟩, 0⟩ rfl).1

end Paracord
